import Mathlib

/-!
Verification of the volcano-heightmap generator (`tools/heightmap.py`).

The Python source is shallowly embedded over an arbitrary linear ordered
field (instantiated at `ℚ` for executable claims and at `ℝ` where the
specification speaks about real inputs or uses real powers).  Machine
floats are idealised as exact field arithmetic; float division producing
NaN is modelled by `Except`-style error results.
-/

namespace Heightmap

variable {α : Type*} [LinearOrderedField α]

/-! ## Module-level tunables (source lines 9–20, exact decimal values) -/

noncomputable def VOLCANO_RADIUS : ℝ := 2/5
noncomputable def VOLCANO_HEIGHT : ℝ := 7/10
noncomputable def CALDERA_RADIUS : ℝ := 3/25
noncomputable def CALDERA_DEPTH : ℝ := 3/10
noncomputable def RADIAL_NOISE_SCALE : ℝ := 20
noncomputable def RADIAL_NOISE_STRENGTH : ℝ := 2/25
noncomputable def ISLAND_FALLOFF_STRENGTH : ℝ := 5/2
noncomputable def ISLAND_FALLOFF_START : ℝ := 1/5
def EROSION_ITERATIONS : ℕ := 50
noncomputable def TALUS_ANGLE : ℝ := 3/200

/-! ## Perlin noise primitive (source lines 23–47) -/

/-- `fade(t) = t * t * t * (t * (t * 6 - 15) + 10)` (source line 25). -/
def fade (t : α) : α := t * t * t * (t * (t * 6 - 15) + 10)

/-- `lerp(t, a, b) = a + t * (b - a)` (source line 28). -/
def lerp (t a b : α) : α := a + t * (b - a)

/-- `grad(hash_val, x, y)` (source lines 30–34): select an axis/sign
combination from the low 4 bits of the hash and form a dot product. -/
def grad (hash_val : ℕ) (x y : α) : α :=
  let h := hash_val &&& 15
  let u := if h < 8 then x else y
  let v := if h < 4 then y else if h = 12 ∨ h = 14 then x else 0
  (if h &&& 1 = 0 then u else -u) + (if h &&& 2 = 0 then v else -v)

variable [FloorRing α]

/-- Python `int(x)`: truncation toward zero (floor for nonnegative
arguments, ceiling for negative ones). -/
def intTrunc (x : α) : ℤ := if x < 0 then ⌈x⌉ else ⌊x⌋

/-- `xi = int(x) & 255` (source line 37).  On Python's two's-complement
integers `& 255` is exactly `mod 256`, also for negative values. -/
def noiseXi (x : α) : ℕ := ((intTrunc x) % 256).toNat

/-- `xf = x - int(x)` (source line 38): fractional offset relative to the
truncated coordinate. -/
def noiseFrac (x : α) : α := x - intTrunc x

/-- Corner contribution `g1 = grad(p[p[xi] + yi], xf, yf)` (source lines 41, 43). -/
def noiseCorner1 (x y : α) (p : ℕ → ℕ) : α :=
  grad (p (p (noiseXi x) + noiseXi y)) (noiseFrac x) (noiseFrac y)

/-- Corner contribution `g2 = grad(p[p[xi + 1] + yi], xf - 1, yf)` (source lines 42, 44). -/
def noiseCorner2 (x y : α) (p : ℕ → ℕ) : α :=
  grad (p (p (noiseXi x + 1) + noiseXi y)) (noiseFrac x - 1) (noiseFrac y)

/-- Corner contribution `g3 = grad(p[p[xi] + yi + 1], xf, yf - 1)` (source lines 41, 45). -/
def noiseCorner3 (x y : α) (p : ℕ → ℕ) : α :=
  grad (p (p (noiseXi x) + noiseXi y + 1)) (noiseFrac x) (noiseFrac y - 1)

/-- Corner contribution `g4 = grad(p[p[xi + 1] + yi + 1], xf - 1, yf - 1)` (source lines 42, 46). -/
def noiseCorner4 (x y : α) (p : ℕ → ℕ) : α :=
  grad (p (p (noiseXi x + 1) + noiseXi y + 1)) (noiseFrac x - 1) (noiseFrac y - 1)

/-- `perlin_noise(x, y, perm_table)` (source lines 36–47):
`lerp(v, lerp(u, g1, g2), lerp(u, g3, g4))` with `u = fade(xf)`, `v = fade(yf)`. -/
def perlin_noise (x y : α) (p : ℕ → ℕ) : α :=
  lerp (fade (noiseFrac y))
    (lerp (fade (noiseFrac x)) (noiseCorner1 x y p) (noiseCorner2 x y p))
    (lerp (fade (noiseFrac x)) (noiseCorner3 x y p) (noiseCorner4 x y p))

/-- A valid permutation table: 512 entries read through a total lookup
function, first 256 a permutation of `0..255`, duplicated in the upper half. -/
def validTable (p : ℕ → ℕ) : Prop :=
  (∀ i, i < 256 → p i < 256) ∧ (∀ i, i < 256 → p (i + 256) = p i) ∧
  (∀ i j, i < 256 → j < 256 → p i = p j → i = j)

/-- The identity permutation table (`p = arange(256)` duplicated, unshuffled). -/
def idTable : ℕ → ℕ := fun i => i % 256

/-! ## Thermal erosion simulator (source lines 71–86) -/

/-- A mutable 2-D elevation grid, modelled as a total function `row → col → value`. -/
abbrev Grid (α : Type*) := ℕ → ℕ → α

/-- In-place single-cell store `world[y][x] = v`. -/
def setCell (g : Grid α) (y x : ℕ) (v : α) : Grid α :=
  Function.update g y (Function.update (g y) x v)

/-- Body of the innermost erosion loop (source lines 81–85) for one
neighbour `n` of the center `(y, x)`: `diff` is computed against the stale
`center_h` read before the neighbour loop, while the writes go through the
current in-place grid `w`. -/
def erodeStep (talus center_h : α) (y x : ℕ) (w : Grid α) (n : ℕ × ℕ) : Grid α :=
  let diff := center_h - w n.1 n.2
  if talus < diff then
    let move_amount := diff / 4
    let w1 := setCell w y x (w y x - move_amount)
    setCell w1 n.1 n.2 (w1 n.1 n.2 + move_amount)
  else w

/-- Body of the erosion loops for one interior cell (source lines 78–85):
read `center_h` once, then visit the W, E, N, S neighbours in order. -/
def processCell (talus : α) (g : Grid α) (y x : ℕ) : Grid α :=
  ([(y, x - 1), (y, x + 1), (y - 1, x), (y + 1, x)] : List (ℕ × ℕ)).foldl
    (erodeStep talus (g y x) y x) g

/-- One full sweep: `for y in range(1, height-1): for x in range(1, width-1)`
(source lines 76–77). -/
def sweep (talus : α) (hgt wdt : ℕ) (g : Grid α) : Grid α :=
  (List.range' 1 (hgt - 2)).foldl
    (fun w y => (List.range' 1 (wdt - 2)).foldl (fun w2 x => processCell talus w2 y x) w) g

/-- `apply_thermal_erosion(world, iterations, talus)` (source lines 72–86):
`iterations` sequential full sweeps over the grid of shape `hgt × wdt`. -/
def apply_thermal_erosion (g : Grid α) (hgt wdt iterations : ℕ) (talus : α) : Grid α :=
  (sweep talus hgt wdt)^[iterations] g

/-- Total elevation over the `hgt × wdt` cells of a grid. -/
def gridSum (hgt wdt : ℕ) (g : Grid α) : α :=
  ∑ y ∈ Finset.range hgt, ∑ x ∈ Finset.range wdt, g y x

/-! ## Permutation table builder (source lines 121–124) -/

/-- Exchange the entries at positions `i` and `j` of a list. -/
def listSwap (l : List ℕ) (i j : ℕ) : List ℕ :=
  (l.set i (l.getD j 0)).set j (l.getD i 0)

/-- numpy `rng.shuffle` (Fisher–Yates): for `i` from `n-1` down to `1`,
draw `j` uniformly in `0..i` and swap entries `i` and `j`.  The random
draws are supplied as a stream `draws`; draw `k` is reduced mod `i+1` so
that every stream yields the in-range index the RNG would produce. -/
def shuffleList (draws : ℕ → ℕ) (l : List ℕ) : List ℕ :=
  (List.range (l.length - 1)).foldl
    (fun arr k =>
      let i := l.length - 1 - k
      listSwap arr i (draws k % (i + 1))) l

/-- `p = arange(256); rng.shuffle(p); perm_table = np.stack((p, p)).flatten()`
(source lines 121–124): shuffle `0..255` and concatenate with itself. -/
def buildPermTable (draws : ℕ → ℕ) : List ℕ :=
  let p := shuffleList draws (List.range 256)
  p ++ p

/-! ## Normalizer and main pipeline (source lines 88–150) -/

/-- Failure modes of the numeric pipeline: numpy raises on a negative
`linspace` sample count and on an empty-array reduction; a flat grid makes
the normalisation `255 * (v - min) / (max - min)` a 0/0 (NaN). -/
inductive PipeError
  | negativeSampleCount
  | emptyGrid
  | flatGrid
deriving DecidableEq

/-- `255 * (final_terrain - min) / (max - min)` (source line 144), on the
flattened grid.  The float division is fallible: an empty grid has no
min/max and a flat grid (max = min) divides zero by zero, producing NaN;
both are modelled as errors since the source provides no guard. -/
def normalizeGrid (l : List α) : Except PipeError (List α) :=
  match l.min?, l.max? with
  | some mn, some mx =>
      if mx = mn then .error .flatGrid
      else .ok (l.map fun v => 255 * (v - mn) / (mx - mn))
  | _, _ => .error .emptyGrid

/-- `np.linspace(a, b, n)` with endpoint: `n` evenly spaced samples from
`a` to `b` (numpy raises on negative `n`, handled at the call site). -/
noncomputable def linspace (a b : ℝ) (n : ℕ) : List ℝ :=
  if n = 0 then []
  else if n = 1 then [a]
  else (List.range n).map fun i => a + (b - a) * i / (n - 1)

/-- `math.atan2(y, x)`. -/
noncomputable def atan2 (y x : ℝ) : ℝ :=
  if 0 < x then Real.arctan (y / x)
  else if x < 0 then
    (if 0 ≤ y then Real.arctan (y / x) + Real.pi else Real.arctan (y / x) - Real.pi)
  else if 0 < y then Real.pi / 2
  else if y < 0 then -(Real.pi / 2)
  else 0

/-- `generate_radial_noise(width, height, scale, strength, perm_table)`
(source lines 50–68): per-cell noise in (distance-from-center, angle)
coordinates, scaled by `strength`. -/
noncomputable def generate_radial_noise (width height : ℕ) (scale strength : ℝ)
    (p : ℕ → ℕ) : Grid ℝ :=
  fun y x =>
    let dx : ℝ := x - width / 2
    let dy : ℝ := y - height / 2
    perlin_noise (Real.sqrt (dx * dx + dy * dy) / (scale * 2)) (atan2 dy dx * scale) p * strength

/-- Island falloff multiplier (source line 139):
`1 - max(0, (dist - ISLAND_FALLOFF_START) / (1 - ISLAND_FALLOFF_START)) ** ISLAND_FALLOFF_STRENGTH`. -/
noncomputable def falloff_map (dist : ℝ) : ℝ :=
  1 - max 0 ((dist - ISLAND_FALLOFF_START) / (1 - ISLAND_FALLOFF_START)) ^ ISLAND_FALLOFF_STRENGTH

/-- The `main()` pipeline (source lines 88–150) after configuration is
resolved: build cone and caldera from normalized coordinates, add radial
noise details, erode, apply island falloff, and normalize the flattened
grid to the 0–255 range.  The random draws behind `RandomState(seed)` are
supplied as the stream `draws`; the result is the row-major normalized
image.  The source performs no validation of `width`/`height`: the only
failure points are numpy's negative-sample-count error in `linspace` and
the normalizer's empty/flat reductions. -/
noncomputable def mainModel (draws : ℕ → ℕ) (width height : ℤ) :
    Except PipeError (List ℝ) :=
  if width < 0 ∨ height < 0 then .error .negativeSampleCount
  else
    let w := width.toNat
    let h := height.toNat
    let xs := linspace (-1) 1 w
    let ys := linspace (-1) 1 h
    let dist : Grid ℝ := fun y x => Real.sqrt ((xs.getD x 0) ^ 2 + (ys.getD y 0) ^ 2)
    let main_cone : Grid ℝ := fun y x =>
      max 0 (VOLCANO_HEIGHT * (1 - (dist y x / VOLCANO_RADIUS) ^ 2))
    let caldera : Grid ℝ := fun y x =>
      max 0 (CALDERA_DEPTH * (1 - (dist y x / CALDERA_RADIUS) ^ 2))
    let base_volcano_shape : Grid ℝ := fun y x => max 0 (main_cone y x - caldera y x)
    let perm : ℕ → ℕ := fun i => (buildPermTable draws).getD i 0
    let details := generate_radial_noise w h RADIAL_NOISE_SCALE RADIAL_NOISE_STRENGTH perm
    let combined_terrain : Grid ℝ := fun y x =>
      base_volcano_shape y x + base_volcano_shape y x * details y x
    let eroded_terrain := apply_thermal_erosion combined_terrain h w EROSION_ITERATIONS TALUS_ANGLE
    let final_terrain : Grid ℝ := fun y x => eroded_terrain y x * falloff_map (dist y x)
    normalizeGrid
      ((List.range h).map (fun y => (List.range w).map fun x => final_terrain y x)).flatten

/-! ## Supporting lemmas about the noise primitive -/

section NoiseLemmas

variable {α : Type*} [LinearOrderedField α]

lemma fade_nonneg {t : α} (h0 : 0 ≤ t) (h1 : t ≤ 1) : 0 ≤ fade t := by
  rw [fade]
  nlinarith [sq_nonneg (t - 5/4), sq_nonneg t, mul_nonneg (mul_nonneg h0 h0) h0]

lemma fade_add_fade_symm (t : α) : fade t + fade (1 - t) = 1 := by
  rw [fade, fade]; ring

lemma fade_le_one {t : α} (h0 : 0 ≤ t) (h1 : t ≤ 1) : fade t ≤ 1 := by
  have := fade_nonneg (t := 1 - t) (by linarith) (by linarith)
  have := fade_add_fade_symm t
  linarith

lemma abs_grad_le (h : ℕ) (x y : α) : |grad h x y| ≤ |x| + |y| := by
  rw [grad]
  have hle : h &&& 15 < 16 := Nat.lt_succ_of_le Nat.and_le_right
  set n := h &&& 15 with hn
  clear_value n
  interval_cases n <;>
    norm_num [show (3 &&& 2 : ℕ) = 2 from rfl, show (12 &&& 2 : ℕ) = 0 from rfl,
      show (14 &&& 2 : ℕ) = 2 from rfl] <;>
    (rw [abs_le]
     constructor <;>
       linarith [le_abs_self x, neg_abs_le x, le_abs_self y, neg_abs_le y])

lemma abs_lerp_le {t : α} (a b : α) (h0 : 0 ≤ t) (h1 : t ≤ 1) :
    |lerp t a b| ≤ (1 - t) * |a| + t * |b| := by
  have h : lerp t a b = (1 - t) * a + t * b := by rw [lerp]; ring
  rw [h]
  refine (abs_add _ _).trans ?_
  rw [abs_mul, abs_mul, abs_of_nonneg (by linarith : (0:α) ≤ 1 - t), abs_of_nonneg h0]

/-- The fade-weighted combination of the two fractional offsets of a cell is
at most 3/4: with `s = t * (1 - t)` it equals `s + s^2 + 12 * s^3` and
`s ≤ 1/4` on the unit interval. -/
lemma interp_weight_le {t : α} (h0 : 0 ≤ t) (h1 : t ≤ 1) :
    (1 - fade t) * t + fade t * (1 - t) ≤ 3/4 := by
  have hA : (1 - fade t) * t + fade t * (1 - t)
      = t * (1 - t) + (t * (1 - t))^2 + 12 * (t * (1 - t))^3 := by
    rw [fade]; ring
  have hs0 : 0 ≤ t * (1 - t) := mul_nonneg h0 (by linarith)
  have hs1 : t * (1 - t) ≤ 1/4 := by nlinarith [sq_nonneg (2*t - 1)]
  have h2 : (t * (1 - t))^2 ≤ 1/16 := by nlinarith
  have h3 : (t * (1 - t))^3 ≤ 1/64 := by nlinarith
  rw [hA]; linarith

variable [FloorRing α]

lemma noiseFrac_nonneg {x : α} (h : 0 ≤ x) : 0 ≤ noiseFrac x := by
  rw [noiseFrac, intTrunc, if_neg (not_lt.2 h)]
  have := Int.floor_le x
  linarith

lemma noiseFrac_lt_one {x : α} (h : 0 ≤ x) : noiseFrac x < 1 := by
  rw [noiseFrac, intTrunc, if_neg (not_lt.2 h)]
  have := Int.lt_floor_add_one x
  linarith

/-- Over any ordered field, the noise value at nonnegative coordinates is
bounded by 3/2 in absolute value, for an arbitrary lookup table. -/
lemma abs_perlin_noise_le (p : ℕ → ℕ) (x y : α) (hx : 0 ≤ x) (hy : 0 ≤ y) :
    |perlin_noise x y p| ≤ 3/2 := by
  set t := noiseFrac x with htd
  set s := noiseFrac y with hsd
  have ht0 : 0 ≤ t := noiseFrac_nonneg hx
  have ht1 : t ≤ 1 := le_of_lt (noiseFrac_lt_one hx)
  have hs0 : 0 ≤ s := noiseFrac_nonneg hy
  have hs1 : s ≤ 1 := le_of_lt (noiseFrac_lt_one hy)
  have hu0 : 0 ≤ fade t := fade_nonneg ht0 ht1
  have hu1 : fade t ≤ 1 := fade_le_one ht0 ht1
  have hv0 : 0 ≤ fade s := fade_nonneg hs0 hs1
  have hv1 : fade s ≤ 1 := fade_le_one hs0 hs1
  have hg1 : |noiseCorner1 x y p| ≤ t + s := by
    refine (abs_grad_le _ _ _).trans ?_
    rw [← htd, ← hsd, abs_of_nonneg ht0, abs_of_nonneg hs0]
  have hg2 : |noiseCorner2 x y p| ≤ (1 - t) + s := by
    refine (abs_grad_le _ _ _).trans ?_
    rw [← htd, ← hsd, abs_of_nonpos (by linarith : t - 1 ≤ 0), abs_of_nonneg hs0]
    linarith
  have hg3 : |noiseCorner3 x y p| ≤ t + (1 - s) := by
    refine (abs_grad_le _ _ _).trans ?_
    rw [← htd, ← hsd, abs_of_nonneg ht0, abs_of_nonpos (by linarith : s - 1 ≤ 0)]
    linarith
  have hg4 : |noiseCorner4 x y p| ≤ (1 - t) + (1 - s) := by
    refine (abs_grad_le _ _ _).trans ?_
    rw [← htd, ← hsd, abs_of_nonpos (by linarith : t - 1 ≤ 0),
      abs_of_nonpos (by linarith : s - 1 ≤ 0)]
    linarith
  have hA := interp_weight_le ht0 ht1
  have hB := interp_weight_le hs0 hs1
  have hrow1 : |lerp (fade t) (noiseCorner1 x y p) (noiseCorner2 x y p)|
      ≤ s + ((1 - fade t) * t + fade t * (1 - t)) := by
    refine (abs_lerp_le _ _ hu0 hu1).trans ?_
    nlinarith [abs_nonneg (noiseCorner1 x y p), abs_nonneg (noiseCorner2 x y p)]
  have hrow2 : |lerp (fade t) (noiseCorner3 x y p) (noiseCorner4 x y p)|
      ≤ (1 - s) + ((1 - fade t) * t + fade t * (1 - t)) := by
    refine (abs_lerp_le _ _ hu0 hu1).trans ?_
    nlinarith [abs_nonneg (noiseCorner3 x y p), abs_nonneg (noiseCorner4 x y p)]
  have hfin : |perlin_noise x y p|
      ≤ (1 - fade s) * |lerp (fade t) (noiseCorner1 x y p) (noiseCorner2 x y p)|
        + fade s * |lerp (fade t) (noiseCorner3 x y p) (noiseCorner4 x y p)| := by
    rw [perlin_noise, ← htd, ← hsd]
    exact abs_lerp_le _ _ hv0 hv1
  have hBs : (1 - fade s) * (s + ((1 - fade t) * t + fade t * (1 - t)))
      + fade s * ((1 - s) + ((1 - fade t) * t + fade t * (1 - t)))
      = ((1 - fade s) * s + fade s * (1 - s)) + ((1 - fade t) * t + fade t * (1 - t)) := by
    ring
  have hm1 : (1 - fade s) * |lerp (fade t) (noiseCorner1 x y p) (noiseCorner2 x y p)|
      ≤ (1 - fade s) * (s + ((1 - fade t) * t + fade t * (1 - t))) :=
    mul_le_mul_of_nonneg_left hrow1 (by linarith)
  have hm2 : fade s * |lerp (fade t) (noiseCorner3 x y p) (noiseCorner4 x y p)|
      ≤ fade s * ((1 - s) + ((1 - fade t) * t + fade t * (1 - t))) :=
    mul_le_mul_of_nonneg_left hrow2 hv0
  linarith [hfin, hm1, hm2, hA, hB, hBs]

lemma intTrunc_intCast (a : ℤ) : intTrunc (a : α) = a := by
  rw [intTrunc]
  split
  · exact Int.ceil_intCast a
  · exact Int.floor_intCast a

lemma noiseFrac_intCast (a : ℤ) : noiseFrac (a : α) = 0 := by
  rw [noiseFrac, intTrunc_intCast, sub_self]

lemma fade_zero : fade (0 : α) = 0 := by rw [fade]; ring

lemma grad_zero (h : ℕ) : grad h (0 : α) 0 = 0 := by
  simp [grad]

lemma lerp_zero_left (a b : α) : lerp 0 a b = a := by rw [lerp]; ring

end NoiseLemmas

lemma idTable_valid : validTable idTable := by
  refine ⟨fun i hi => Nat.mod_lt _ (by norm_num), fun i hi => ?_, fun i j hi hj hij => ?_⟩
  · simp [idTable, Nat.add_mod_right]
  · rwa [idTable, idTable, Nat.mod_eq_of_lt hi, Nat.mod_eq_of_lt hj] at hij

/-! ## Claims about the noise primitive: C3, C4, C10 -/

/-- C3 counterexample: at `x = -1/2` the noise primitive does not floor.
The code's fractional offset is `-1/2`, not `x - floor x = 1/2`, it is
negative (outside `[0, 1)`), and the code's cell index is `0` while
`floor(x) mod 256 = 255`. -/
theorem noise_trunc_cex :
    noiseFrac (-1/2 : ℝ) ≠ (-1/2 : ℝ) - (⌊(-1/2 : ℝ)⌋ : ℝ) ∧
    noiseFrac (-1/2 : ℝ) < 0 ∧
    noiseXi (-1/2 : ℝ) ≠ (⌊(-1/2 : ℝ)⌋ % 256).toNat := by
  have htr : intTrunc (-1/2 : ℝ) = 0 := by
    rw [intTrunc, if_pos (by norm_num : (-1/2 : ℝ) < 0)]
    norm_num
  have hfr : noiseFrac (-1/2 : ℝ) = -1/2 := by rw [noiseFrac, htr]; norm_num
  have hfl : ⌊(-1/2 : ℝ)⌋ = -1 := by norm_num
  refine ⟨?_, ?_, ?_⟩
  · rw [hfr, hfl]; norm_num
  · rw [hfr]; norm_num
  · rw [noiseXi, htr, hfl]; decide

/-- C3 amended: the noise primitive truncates toward zero, not flooring:
`xi = trunc(x) & 255` and `xf = x - trunc(x)`.  For `x ≥ 0` truncation
agrees with flooring and `xf ∈ [0, 1)`; for `x < 0` the fractional offset
lies in `(-1, 0]` rather than `[0, 1)`. -/
theorem noise_trunc_semantics (x : ℝ) :
    (0 ≤ x → intTrunc x = ⌊x⌋ ∧ 0 ≤ noiseFrac x ∧ noiseFrac x < 1) ∧
    (x < 0 → -1 < noiseFrac x ∧ noiseFrac x ≤ 0) := by
  constructor
  · intro h
    exact ⟨by rw [intTrunc, if_neg (not_lt.2 h)], noiseFrac_nonneg h, noiseFrac_lt_one h⟩
  · intro h
    have ht : intTrunc x = ⌈x⌉ := by rw [intTrunc, if_pos h]
    constructor
    · rw [noiseFrac, ht]
      have := Int.ceil_lt_add_one x
      linarith
    · rw [noiseFrac, ht]
      have := Int.le_ceil x
      linarith

/-- C3 witness: the amended theorem applied at the concrete input `x = -1/2`. -/
theorem noise_trunc_semantics_witness :
    (-1/2 : ℝ) < 0 ∧ (-1 < noiseFrac (-1/2 : ℝ) ∧ noiseFrac (-1/2 : ℝ) ≤ 0) :=
  ⟨by norm_num, (noise_trunc_semantics (-1/2)).2 (by norm_num)⟩

/-- C4 counterexample: with the (valid) identity permutation table, the
noise value at the real pair `(-9/10, 0)` is below `-3/2`, so the claimed
bound over all real pairs fails (truncation toward zero makes `fade`
evaluate at `-9/10`, far outside `[0, 1]`). -/
theorem noise_bound_cex :
    validTable idTable ∧ perlin_noise (-9/10 : ℝ) 0 idTable < -(3/2) := by
  refine ⟨idTable_valid, ?_⟩
  have htr : intTrunc (-9/10 : ℝ) = 0 := by
    rw [intTrunc, if_pos (by norm_num : (-9/10 : ℝ) < 0)]
    norm_num
  have htr0 : intTrunc (0 : ℝ) = 0 := by
    rw [intTrunc, if_neg (by norm_num : ¬ (0:ℝ) < 0)]
    norm_num
  have hxi : noiseXi (-9/10 : ℝ) = 0 := by rw [noiseXi, htr]; rfl
  have hyi : noiseXi (0 : ℝ) = 0 := by rw [noiseXi, htr0]; rfl
  have hfr : noiseFrac (-9/10 : ℝ) = -9/10 := by rw [noiseFrac, htr]; norm_num
  have hfr0 : noiseFrac (0 : ℝ) = 0 := by rw [noiseFrac, htr0]; norm_num
  rw [perlin_noise, noiseCorner1, noiseCorner2, noiseCorner3, noiseCorner4,
    hxi, hyi, hfr, hfr0]
  norm_num [idTable, grad, lerp, fade]

/-- C4 amended: restricted to nonnegative real coordinates (as sampled by
the radial synthesizer for the distance axis), the noise value is within
`[-3/2, 3/2]` for every lookup table. -/
theorem noise_bound_nonneg (p : ℕ → ℕ) (x y : ℝ) (hx : 0 ≤ x) (hy : 0 ≤ y) :
    |perlin_noise x y p| ≤ 3/2 :=
  abs_perlin_noise_le p x y hx hy

/-- C4 witness: the amended bound applied at the concrete pair `(0, 0)`
with the identity table. -/
theorem noise_bound_nonneg_witness :
    (0:ℝ) ≤ 0 ∧ |perlin_noise (0 : ℝ) 0 idTable| ≤ 3/2 :=
  ⟨le_refl 0, noise_bound_nonneg idTable 0 0 (le_refl 0) (le_refl 0)⟩

/-- C10 counterexample: at the lattice point `(0, 0)` with the (valid)
identity table, the second corner gradient contribution `g2` equals `1`,
not `0`: the corner contributions do not all vanish at lattice points. -/
theorem lattice_corner_grad_cex :
    validTable idTable ∧ noiseCorner2 (0:ℝ) 0 idTable ≠ 0 := by
  refine ⟨idTable_valid, ?_⟩
  have htr0 : intTrunc (0 : ℝ) = 0 := by
    rw [intTrunc, if_neg (by norm_num : ¬ (0:ℝ) < 0)]
    norm_num
  have h0 : noiseXi (0:ℝ) = 0 := by rw [noiseXi, htr0]; rfl
  have hf : noiseFrac (0:ℝ) = 0 := by rw [noiseFrac, htr0]; norm_num
  rw [noiseCorner2, h0, hf]
  norm_num [idTable, grad]

/-- C10 amended: at integer coordinates the fractional offsets vanish, so
`fade(0) = 0` collapses both interpolations onto the first corner
contribution `g1 = grad(aa, 0, 0) = 0`, and the noise value is exactly `0`
for every valid table (the other three corner contributions are discarded
by the interpolation but need not vanish). -/
theorem noise_zero_at_lattice (a b : ℤ) (p : ℕ → ℕ) (hp : validTable p) :
    perlin_noise (a : ℝ) (b : ℝ) p = 0 := by
  rw [perlin_noise, noiseFrac_intCast, noiseFrac_intCast, fade_zero, lerp_zero_left,
    lerp_zero_left, noiseCorner1, noiseFrac_intCast, noiseFrac_intCast, grad_zero]

/-- C10 witness: the amended theorem applied at the lattice point `(0, 0)`
with the identity table. -/
theorem noise_zero_at_lattice_witness :
    validTable idTable ∧ perlin_noise ((0:ℤ) : ℝ) ((0:ℤ) : ℝ) idTable = 0 :=
  ⟨idTable_valid, noise_zero_at_lattice 0 0 idTable idTable_valid⟩

/-! ## Supporting lemmas about the erosion simulator -/

section ErosionLemmas

variable {α : Type*} [LinearOrderedField α]

lemma setCell_eq (g : Grid α) (y x : ℕ) (v : α) : setCell g y x v y x = v := by
  simp [setCell]

lemma setCell_ne (g : Grid α) (y x : ℕ) (v : α) {py px : ℕ} (h : (py, px) ≠ (y, x)) :
    setCell g y x v py px = g py px := by
  rw [setCell, Function.update_apply]
  split
  · next heq =>
    subst heq
    have hx : px ≠ x := by
      intro hc; exact h (by rw [hc])
    rw [Function.update_noteq hx]
  · rfl

lemma gridSum_setCell {hgt wdt : ℕ} (g : Grid α) {y x : ℕ} (hy : y < hgt) (hx : x < wdt)
    (v : α) : gridSum hgt wdt (setCell g y x v) = gridSum hgt wdt g + (v - g y x) := by
  rw [gridSum, gridSum]
  have hrow : ∀ y' ∈ Finset.range hgt,
      ∑ x' ∈ Finset.range wdt, setCell g y x v y' x'
        = Function.update (fun y'' => ∑ x' ∈ Finset.range wdt, g y'' x') y
            (∑ x' ∈ Finset.range wdt, Function.update (g y) x v x') y' := by
    intro y' _
    rw [Function.update_apply]
    split
    · next heq => subst heq; simp [setCell]
    · next hne =>
      refine Finset.sum_congr rfl fun x' _ => ?_
      rw [setCell, Function.update_noteq hne]
  rw [Finset.sum_congr rfl hrow, Finset.sum_update_of_mem (Finset.mem_range.2 hy),
    Finset.sum_update_of_mem (Finset.mem_range.2 hx)]
  rw [Finset.sum_eq_sum_diff_singleton_add (Finset.mem_range.2 hy)
    (fun y'' => ∑ x' ∈ Finset.range wdt, g y'' x'),
    Finset.sum_eq_sum_diff_singleton_add (Finset.mem_range.2 hx) (g y)]
  ring

lemma gridSum_erodeStep {hgt wdt : ℕ} (talus c : α) {y x : ℕ} (w : Grid α) (n : ℕ × ℕ)
    (hy : y < hgt) (hx : x < wdt) (hny : n.1 < hgt) (hnx : n.2 < wdt)
    (hne : (n.1, n.2) ≠ (y, x)) :
    gridSum hgt wdt (erodeStep talus c y x w n) = gridSum hgt wdt w := by
  rw [erodeStep]
  split
  · rw [gridSum_setCell _ hny hnx, gridSum_setCell _ hy hx, setCell_ne _ _ _ _ hne]
    ring
  · rfl

lemma gridSum_processCell {hgt wdt : ℕ} (talus : α) (g : Grid α) {y x : ℕ}
    (hy1 : 1 ≤ y) (hy2 : y + 1 < hgt) (hx1 : 1 ≤ x) (hx2 : x + 1 < wdt) :
    gridSum hgt wdt (processCell talus g y x) = gridSum hgt wdt g := by
  rw [processCell]
  simp only [List.foldl_cons, List.foldl_nil]
  rw [gridSum_erodeStep _ _ _ _ (by omega) (by omega) (by omega) (by omega) (by simp; try omega),
    gridSum_erodeStep _ _ _ _ (by omega) (by omega) (by omega) (by omega) (by simp; try omega),
    gridSum_erodeStep _ _ _ _ (by omega) (by omega) (by omega) (by omega) (by simp; try omega),
    gridSum_erodeStep _ _ _ _ (by omega) (by omega) (by omega) (by omega) (by simp; try omega)]

lemma gridSum_sweep (talus : α) (hgt wdt : ℕ) (g : Grid α) :
    gridSum hgt wdt (sweep talus hgt wdt g) = gridSum hgt wdt g := by
  rw [sweep]
  have hcols : ∀ (xs : List ℕ), (∀ x ∈ xs, 1 ≤ x ∧ x + 1 < wdt) →
      ∀ (y : ℕ), 1 ≤ y → y + 1 < hgt → ∀ (w : Grid α),
      gridSum hgt wdt (xs.foldl (fun w2 x => processCell talus w2 y x) w) = gridSum hgt wdt w := by
    intro xs
    induction xs with
    | nil => intro _ y _ _ w; rfl
    | cons a as ih =>
      intro hmem y hy1 hy2 w
      rw [List.foldl_cons, ih (fun x hx => hmem x (List.mem_cons_of_mem a hx)) y hy1 hy2,
        gridSum_processCell _ _ hy1 hy2 (hmem a (List.mem_cons_self a as)).1
          (hmem a (List.mem_cons_self a as)).2]
  have hrows : ∀ (ys : List ℕ), (∀ y ∈ ys, 1 ≤ y ∧ y + 1 < hgt) → ∀ (w : Grid α),
      gridSum hgt wdt (ys.foldl
        (fun w y => (List.range' 1 (wdt - 2)).foldl (fun w2 x => processCell talus w2 y x) w) w)
        = gridSum hgt wdt w := by
    intro ys
    induction ys with
    | nil => intro _ w; rfl
    | cons a as ih =>
      intro hmem w
      rw [List.foldl_cons, ih (fun y hy => hmem y (List.mem_cons_of_mem a hy)),
        hcols (List.range' 1 (wdt - 2)) (fun x hx => by
          rw [List.mem_range'_1] at hx
          omega) a (hmem a (List.mem_cons_self a as)).1 (hmem a (List.mem_cons_self a as)).2]
  exact hrows _ (fun y hy => by rw [List.mem_range'_1] at hy; omega) g

lemma gridSum_erosion (g : Grid α) (hgt wdt iterations : ℕ) (talus : α) :
    gridSum hgt wdt (apply_thermal_erosion g hgt wdt iterations talus) = gridSum hgt wdt g := by
  rw [apply_thermal_erosion]
  induction iterations with
  | zero => rfl
  | succ n ih => rw [Function.iterate_succ_apply', gridSum_sweep, ih]

lemma erodeStep_mono {talus : α} (h0 : 0 ≤ talus) (c : α) {y x by_ bx : ℕ}
    (hb : (by_, bx) ≠ (y, x)) (w : Grid α) (n : ℕ × ℕ) :
    w by_ bx ≤ erodeStep talus c y x w n by_ bx := by
  rw [erodeStep]
  split
  · next hlt =>
    have hm : 0 ≤ (c - w n.1 n.2) / 4 := by
      have : (0:α) < c - w n.1 n.2 := lt_of_le_of_lt h0 hlt
      positivity
    by_cases hbn : (by_, bx) = (n.1, n.2)
    · have h1 : by_ = n.1 := congrArg Prod.fst hbn
      have h2 : bx = n.2 := congrArg Prod.snd hbn
      subst h1
      subst h2
      rw [setCell_eq, setCell_ne _ _ _ _ hb]
      linarith
    · rw [setCell_ne _ _ _ _ hbn, setCell_ne _ _ _ _ hb]
  · exact le_refl _

lemma processCell_mono {talus : α} (h0 : 0 ≤ talus) (g : Grid α) {y x by_ bx : ℕ}
    (hb : (by_, bx) ≠ (y, x)) :
    g by_ bx ≤ processCell talus g y x by_ bx := by
  rw [processCell]
  have key : ∀ (ns : List (ℕ × ℕ)) (w : Grid α),
      w by_ bx ≤ (ns.foldl (erodeStep talus (g y x) y x) w) by_ bx := by
    intro ns
    induction ns with
    | nil => intro w; exact le_refl _
    | cons a as ih =>
      intro w
      rw [List.foldl_cons]
      exact le_trans (erodeStep_mono h0 _ hb w a) (ih _)
  exact key _ g

lemma sweep_mono {talus : α} (h0 : 0 ≤ talus) (hgt wdt : ℕ) (g : Grid α) {by_ bx : ℕ}
    (hbound : by_ = 0 ∨ by_ + 1 = hgt ∨ bx = 0 ∨ bx + 1 = wdt) :
    g by_ bx ≤ sweep talus hgt wdt g by_ bx := by
  rw [sweep]
  have hcols : ∀ (xs : List ℕ), (∀ x ∈ xs, 1 ≤ x ∧ x + 1 < wdt) →
      ∀ (y : ℕ), 1 ≤ y → y + 1 < hgt → ∀ (w : Grid α),
      w by_ bx ≤ (xs.foldl (fun w2 x => processCell talus w2 y x) w) by_ bx := by
    intro xs
    induction xs with
    | nil => intro _ y _ _ w; exact le_refl _
    | cons a as ih =>
      intro hmem y hy1 hy2 w
      rw [List.foldl_cons]
      refine le_trans (processCell_mono h0 w ?_)
        (ih (fun x hx => hmem x (List.mem_cons_of_mem a hx)) y hy1 hy2 _)
      have := hmem a (List.mem_cons_self a as)
      simp
      omega
  have hrows : ∀ (ys : List ℕ), (∀ y ∈ ys, 1 ≤ y ∧ y + 1 < hgt) → ∀ (w : Grid α),
      w by_ bx ≤ (ys.foldl
        (fun w y => (List.range' 1 (wdt - 2)).foldl (fun w2 x => processCell talus w2 y x) w) w)
        by_ bx := by
    intro ys
    induction ys with
    | nil => intro _ w; exact le_refl _
    | cons a as ih =>
      intro hmem w
      rw [List.foldl_cons]
      refine le_trans (hcols (List.range' 1 (wdt - 2)) (fun x hx => by
          rw [List.mem_range'_1] at hx; omega)
        a (hmem a (List.mem_cons_self a as)).1 (hmem a (List.mem_cons_self a as)).2 w)
        (ih (fun y hy => hmem y (List.mem_cons_of_mem a hy)) _)
  exact hrows _ (fun y hy => by rw [List.mem_range'_1] at hy; omega) g

lemma erosion_mono (g : Grid α) (hgt wdt iterations : ℕ) {talus : α}
    (h0 : 0 ≤ talus) {by_ bx : ℕ}
    (hbound : by_ = 0 ∨ by_ + 1 = hgt ∨ bx = 0 ∨ bx + 1 = wdt) :
    g by_ bx ≤ apply_thermal_erosion g hgt wdt iterations talus by_ bx := by
  rw [apply_thermal_erosion]
  induction iterations with
  | zero => exact le_refl _
  | succ n ih =>
    rw [Function.iterate_succ_apply']
    exact le_trans ih (sweep_mono h0 hgt wdt _ hbound)

end ErosionLemmas

/-! ## Claims about the erosion simulator: C1, C2, C9 -/

/-- A 3×3 grid with a tall center cell and zero everywhere else. -/
def cexGrid1 : Grid ℚ := fun y x => if y = 1 ∧ x = 1 then 100 else 0

/-- C1 counterexample: after one erosion sweep of `cexGrid1` with talus 1,
the boundary-ring cell `(1, 0)` holds 25, not its entry value 0: interior
centers push `diff / 4` onto their boundary neighbours, so the outermost
ring is written to. -/
theorem erosion_boundary_cex :
    apply_thermal_erosion cexGrid1 3 3 1 1 1 0 ≠ cexGrid1 1 0 := by
  have h : apply_thermal_erosion cexGrid1 3 3 1 1 1 0 = 25 := by
    simp only [apply_thermal_erosion, Function.iterate_one, sweep,
      show List.range' 1 (3-2) = [1] from rfl, List.foldl_cons, List.foldl_nil,
      processCell, erodeStep]
    norm_num [setCell, Function.update_apply, cexGrid1]
  rw [h]
  norm_num [cexGrid1]

/-- C1 amended: boundary-ring cells are never chosen as transfer centers,
so they never lose elevation; but they do receive transfers from adjacent
interior centers.  For any nonnegative talus threshold, any iteration
count and any grid, every boundary-ring cell's value after
`apply_thermal_erosion` is at least its entry value. -/
theorem erosion_boundary_nondecreasing (g : Grid ℚ) (hgt wdt iterations : ℕ)
    (talus : ℚ) (h0 : 0 ≤ talus) (by_ bx : ℕ)
    (hbound : by_ = 0 ∨ by_ + 1 = hgt ∨ bx = 0 ∨ bx + 1 = wdt) :
    g by_ bx ≤ apply_thermal_erosion g hgt wdt iterations talus by_ bx :=
  erosion_mono g hgt wdt iterations h0 hbound

/-- C1 witness: the amended theorem applied to the concrete 3×3 grid at
the boundary cell `(1, 0)` with talus 1. -/
theorem erosion_boundary_nondecreasing_witness :
    (0:ℚ) ≤ 1 ∧ ((1:ℕ) = 0 ∨ 1 + 1 = 3 ∨ (0:ℕ) = 0 ∨ 0 + 1 = 3) ∧
    cexGrid1 1 0 ≤ apply_thermal_erosion cexGrid1 3 3 1 1 1 0 :=
  ⟨by norm_num, Or.inr (Or.inr (Or.inl rfl)),
    erosion_boundary_nondecreasing cexGrid1 3 3 1 1 (by norm_num) 1 0
      (Or.inr (Or.inr (Or.inl rfl)))⟩

/-- C2: every transfer subtracts `diff / 4` from the center and adds the
same amount to a neighbour inside the grid, so under exact arithmetic the
total elevation over the `hgt × wdt` cells is invariant under any number
of erosion sweeps, for every grid and talus threshold. -/
theorem erosion_conserves_total_elevation (g : Grid ℚ) (hgt wdt iterations : ℕ)
    (talus : ℚ) :
    gridSum hgt wdt (apply_thermal_erosion g hgt wdt iterations talus)
      = gridSum hgt wdt g :=
  gridSum_erosion g hgt wdt iterations talus

/-- A 3×5 grid whose three rows all read `[0, 6400, 320, 0, 0]`. -/
def cexGrid9 : Grid ℚ := fun _ x => if x = 1 then 6400 else if x = 2 then 320 else 0

/-- C9 counterexample: in `cexGrid9` with talus 32, the interior adjacent
pair `(1,2)-(1,3)` has difference 320 > 32 before the sweep, yet after one
full sweep the pair reads 620 and 115: the absolute difference grew from
320 to 505, because the in-place sweep first moved a large amount from the
tall cell `(1,1)` onto `(1,2)`. -/
theorem erosion_pair_diff_increases :
    (32:ℚ) < cexGrid9 1 2 - cexGrid9 1 3 ∧
    |cexGrid9 1 2 - cexGrid9 1 3|
      < |apply_thermal_erosion cexGrid9 3 5 1 32 1 2
          - apply_thermal_erosion cexGrid9 3 5 1 32 1 3| := by
  have h2 : apply_thermal_erosion cexGrid9 3 5 1 32 1 2 = 620 ∧
      apply_thermal_erosion cexGrid9 3 5 1 32 1 3 = 115 := by
    simp only [apply_thermal_erosion, Function.iterate_one, sweep,
      show List.range' 1 (3-2) = [1] from rfl, show List.range' 1 (5-2) = [1,2,3] from rfl,
      List.foldl_cons, List.foldl_nil, processCell, erodeStep]
    norm_num [setCell, Function.update_apply, cexGrid9]
  rw [h2.1, h2.2]
  norm_num [cexGrid9]

/-- A 3×3 grid holding `b` at `(1, 0)` and `c` everywhere else: the center
`(1, 1)` exceeds exactly its west neighbour. -/
def isoGrid (b c : ℚ) : Grid ℚ := fun y x => if y = 1 ∧ x = 0 then b else c

/-- C9 amended: over a full sweep the absolute difference of a pair that
exceeded the talus may grow (other in-place transfers can re-steepen it);
what holds is the isolated-pair case: when the center exceeds exactly one
neighbour and no other slope exceeds the (nonnegative) talus, one sweep
moves `diff / 4` across the pair, leaving exactly half the difference —
in particular the difference does not increase. -/
theorem erosion_isolated_pair_halves (b c talus : ℚ) (h0 : 0 ≤ talus)
    (h1 : talus < c - b) :
    apply_thermal_erosion (isoGrid b c) 3 3 1 talus 1 1
        - apply_thermal_erosion (isoGrid b c) 3 3 1 talus 1 0 = (c - b) / 2 ∧
    |apply_thermal_erosion (isoGrid b c) 3 3 1 talus 1 1
        - apply_thermal_erosion (isoGrid b c) 3 3 1 talus 1 0|
      ≤ |isoGrid b c 1 1 - isoGrid b c 1 0| := by
  have heq : apply_thermal_erosion (isoGrid b c) 3 3 1 talus 1 1
      - apply_thermal_erosion (isoGrid b c) 3 3 1 talus 1 0 = (c - b) / 2 := by
    simp only [apply_thermal_erosion, Function.iterate_one, sweep,
      show List.range' 1 (3-2) = [1] from rfl, List.foldl_cons, List.foldl_nil,
      processCell, erodeStep]
    norm_num [isoGrid, setCell, Function.update_apply, h1, not_lt.2 h0]
    ring
  refine ⟨heq, ?_⟩
  rw [heq]
  have hg1 : isoGrid b c 1 1 = c := by norm_num [isoGrid]
  have hg0 : isoGrid b c 1 0 = b := by norm_num [isoGrid]
  rw [hg1, hg0, abs_of_pos (by linarith : (0:ℚ) < (c - b) / 2),
    abs_of_pos (by linarith : (0:ℚ) < c - b)]
  linarith

/-- C9 witness: the amended theorem applied at `b = 0`, `c = 8`, talus 1. -/
theorem erosion_isolated_pair_halves_witness :
    (0:ℚ) ≤ 1 ∧ (1:ℚ) < 8 - 0 ∧
    (apply_thermal_erosion (isoGrid 0 8) 3 3 1 1 1 1
        - apply_thermal_erosion (isoGrid 0 8) 3 3 1 1 1 0 = (8 - 0) / 2 ∧
      |apply_thermal_erosion (isoGrid 0 8) 3 3 1 1 1 1
          - apply_thermal_erosion (isoGrid 0 8) 3 3 1 1 1 0|
        ≤ |isoGrid 0 8 1 1 - isoGrid 0 8 1 0|) :=
  ⟨by norm_num, by norm_num,
    erosion_isolated_pair_halves 0 8 1 (by norm_num) (by norm_num)⟩

/-! ## Supporting lemmas about the permutation table builder -/

lemma listSwap_length (l : List ℕ) (i j : ℕ) : (listSwap l i j).length = l.length := by
  simp [listSwap]

lemma listSwap_perm (l : List ℕ) (i j : ℕ) (hi : i < l.length) (hj : j < l.length) :
    (listSwap l i j).Perm l := by
  rw [List.perm_iff_count]
  intro m
  rw [listSwap]
  have hj' : j < (l.set i (l.getD j 0)).length := by simpa using hj
  rw [List.count_set _ _ _ _ hj', List.count_set _ _ _ _ hi]
  have h1 : l[i] = m → 1 ≤ l.count m := fun h =>
    List.count_pos_iff.2 (h ▸ List.getElem_mem hi)
  have h2 : l[j] = m → 1 ≤ l.count m := fun h =>
    List.count_pos_iff.2 (h ▸ List.getElem_mem hj)
  by_cases hij : i = j
  · subst hij
    simp only [List.getElem_set_self, List.getD_eq_getElem l 0 hi, beq_iff_eq]
    split_ifs <;> omega
  · simp only [List.getElem_set_ne hij, List.getD_eq_getElem l 0 hj,
      List.getD_eq_getElem l 0 hi, beq_iff_eq]
    split_ifs <;> omega

lemma foldl_listSwap_perm (draws : ℕ → ℕ) (n : ℕ) :
    ∀ (ks : List ℕ) (arr : List ℕ), arr.length = n →
      (ks.foldl (fun a k => listSwap a (n - 1 - k) (draws k % (n - 1 - k + 1))) arr).Perm arr := by
  intro ks
  induction ks with
  | nil => intro arr _; exact List.Perm.refl _
  | cons a as ih =>
    intro arr hlen
    rw [List.foldl_cons]
    by_cases hn : n = 0
    · have harr : arr = [] := by rw [← List.length_eq_zero]; omega
      subst harr
      exact ih _ hlen
    · have hi : n - 1 - a < arr.length := by omega
      have hj : draws a % (n - 1 - a + 1) < arr.length := by
        have := Nat.mod_lt (draws a) (y := n - 1 - a + 1) (by omega)
        omega
      exact (ih _ (by rw [listSwap_length]; exact hlen)).trans (listSwap_perm _ _ _ hi hj)

lemma shuffleList_perm (draws : ℕ → ℕ) (l : List ℕ) : (shuffleList draws l).Perm l := by
  rw [shuffleList]
  exact foldl_listSwap_perm draws l.length _ l rfl

lemma shuffleList_length (draws : ℕ → ℕ) (l : List ℕ) :
    (shuffleList draws l).length = l.length :=
  (shuffleList_perm draws l).length_eq

lemma shuffleList_congr {draws1 draws2 : ℕ → ℕ} (l : List ℕ)
    (h : ∀ k, k < l.length - 1 → draws1 k = draws2 k) :
    shuffleList draws1 l = shuffleList draws2 l := by
  rw [shuffleList, shuffleList]
  have key : ∀ (ks : List ℕ), (∀ k ∈ ks, draws1 k = draws2 k) → ∀ (arr : List ℕ),
      (ks.foldl (fun a k => listSwap a (l.length - 1 - k) (draws1 k % (l.length - 1 - k + 1))) arr)
      = ks.foldl (fun a k => listSwap a (l.length - 1 - k) (draws2 k % (l.length - 1 - k + 1))) arr := by
    intro ks
    induction ks with
    | nil => intro _ _; rfl
    | cons a as ih =>
      intro hmem arr
      rw [List.foldl_cons, List.foldl_cons, hmem a (List.mem_cons_self a as),
        ih (fun k hk => hmem k (List.mem_cons_of_mem a hk))]
  exact key _ (fun k hk => h k (List.mem_range.1 hk)) l

lemma buildPermTable_take (draws : ℕ → ℕ) :
    (buildPermTable draws).take 256 = shuffleList draws (List.range 256) := by
  rw [buildPermTable]
  have hlen : (shuffleList draws (List.range 256)).length = 256 := by
    simp [shuffleList_length]
  calc (shuffleList draws (List.range 256) ++ shuffleList draws (List.range 256)).take 256
      = (shuffleList draws (List.range 256) ++ shuffleList draws (List.range 256)).take
          (shuffleList draws (List.range 256)).length := by rw [hlen]
    _ = shuffleList draws (List.range 256) := List.take_left _ _

/-! ## Claim about the permutation table builder: C8 -/

/-- C8: for every stream of random draws, the 512-entry table is the
shuffled permutation of `0..255` concatenated with itself (entry `i + 256`
equals entry `i`, and the first 256 entries are a permutation of `0..255`),
and the table is determined by the first 255 draws — so a fixed seed, which
fixes the `RandomState` draw stream, always yields the identical table. -/
theorem permTable_spec (draws : ℕ → ℕ) :
    (buildPermTable draws).length = 512 ∧
    (∀ i, i < 256 → (buildPermTable draws).getD (i + 256) 0 = (buildPermTable draws).getD i 0) ∧
    ((buildPermTable draws).take 256).Perm (List.range 256) ∧
    (∀ draws2 : ℕ → ℕ, (∀ k, k < 255 → draws k = draws2 k) →
      buildPermTable draws = buildPermTable draws2) := by
  have hlen : (shuffleList draws (List.range 256)).length = 256 := by
    simp [shuffleList_length]
  refine ⟨?_, fun i hi => ?_, ?_, fun draws2 hpre => ?_⟩
  · rw [buildPermTable]
    simp [shuffleList_length]
  · rw [buildPermTable, List.getD_eq_getElem?_getD, List.getD_eq_getElem?_getD,
      List.getElem?_append_right (by rw [hlen]; omega),
      List.getElem?_append_left (by rw [hlen]; omega), hlen]
    norm_num
  · rw [buildPermTable_take]
    exact shuffleList_perm draws (List.range 256)
  · rw [buildPermTable, buildPermTable,
      shuffleList_congr (List.range 256) (fun k hk => hpre k (by simpa using hk))]

/-- C8 witness: the theorem applied to the all-zero draw stream, reading
the duplicated entry at 256 and comparing with a stream agreeing on the
first 255 draws. -/
theorem permTable_spec_witness :
    (buildPermTable fun _ => 0).getD (0 + 256) 0 = (buildPermTable fun _ => 0).getD 0 0 ∧
    buildPermTable (fun _ => 0) = buildPermTable (fun k => if k < 255 then 0 else 7) :=
  ⟨(permTable_spec fun _ => 0).2.1 0 (by norm_num),
    (permTable_spec fun _ => 0).2.2.2 _ (fun k hk => by rw [if_pos hk])⟩

/-! ## Claims about the island falloff, the normalizer and the pipeline: C5, C6, C7 -/

/-- C5 counterexample: at normalized distance `7/5` (reachable by corner
cells, whose distance approaches `sqrt 2 ≈ 1.414`), the falloff multiplier
is `1 - (3/2) ^ 2.5 < 0`: the multiplier is not non-negative over the
grid's distance range. -/
theorem falloff_negative_cex : falloff_map (7/5) < 0 := by
  have h1 : ((7:ℝ)/5 - ISLAND_FALLOFF_START) / (1 - ISLAND_FALLOFF_START) = 3/2 := by
    rw [ISLAND_FALLOFF_START]; norm_num
  have h2 : max (0:ℝ) (3/2) = 3/2 := by norm_num
  have h3 : ((3:ℝ)/2) ^ (1:ℝ) < (3/2 : ℝ) ^ ISLAND_FALLOFF_STRENGTH := by
    apply Real.rpow_lt_rpow_of_exponent_lt (by norm_num)
    rw [ISLAND_FALLOFF_STRENGTH]; norm_num
  rw [Real.rpow_one] at h3
  rw [falloff_map, h1, h2]
  linarith

/-- C5 amended: the falloff multiplier is non-negative for normalized
distances up to 1 (the inscribed disc); beyond distance 1 — still within
the corner range `[0, sqrt 2]` — it turns negative, so the product with a
positive eroded elevation can drop below zero. -/
theorem falloff_nonneg_within_unit (d : ℝ) (h0 : 0 ≤ d) (h1 : d ≤ 1) :
    0 ≤ falloff_map d := by
  rw [falloff_map]
  have hs : (0:ℝ) ≤ ISLAND_FALLOFF_STRENGTH := by rw [ISLAND_FALLOFF_STRENGTH]; norm_num
  have hb : max 0 ((d - ISLAND_FALLOFF_START) / (1 - ISLAND_FALLOFF_START)) ≤ 1 := by
    rw [ISLAND_FALLOFF_START]
    apply max_le (by norm_num)
    rw [div_le_one (by norm_num)]
    linarith
  have := Real.rpow_le_one (le_max_left _ _) hb hs
  linarith

/-- C5 witness: the amended theorem applied at distance `1/2`. -/
theorem falloff_nonneg_within_unit_witness :
    (0:ℝ) ≤ 1/2 ∧ (1/2:ℝ) ≤ 1 ∧ 0 ≤ falloff_map (1/2) :=
  ⟨by norm_num, by norm_num, falloff_nonneg_within_unit (1/2) (by norm_num) (by norm_num)⟩

/-- C6: on a perfectly flat grid the normalizer's divisor `max - min` is
zero and the source has no guard: the division is undefined (NaN in float
arithmetic, an error in this embedding) — no deterministic fallback grid
is produced. -/
theorem normalize_flat_grid_error :
    normalizeGrid ([1, 1, 1, 1] : List ℚ) = .error .flatGrid := rfl

/-- C7: the pipeline performs no configuration validation.  With the
invalid configuration `width = 0, height = 0` every terrain stage runs on
empty grids and the failure only surfaces at the very last stage, as the
normalizer's empty-array reduction error — not as a configuration error at
entry. -/
theorem main_no_config_validation (draws : ℕ → ℕ) :
    mainModel draws 0 0 = .error .emptyGrid := rfl

end Heightmap
